import Mathlib

/-!
Shallow embedding of the Pig game implementation (pig_extended.py).

Randomness (Die.roll) and console input are modelled as oracle streams:
a list of die rolls and a list of raw human input lines, consumed in
order.  Exhaustion of an oracle yields `none`.  `exit()` is modelled by a
distinguished `quit` outcome that carries no successor game state.  The
unbounded game loops are modelled with explicit fuel.
-/

/-- Kind tag distinguishing the HumanPlayer and ComputerPlayer subclasses. -/
inductive PlayerKind
  | human
  | computer
deriving DecidableEq, Repr

/-- A player: name (fixed) and accumulated score, plus the subclass tag. -/
structure Player where
  kind : PlayerKind
  name : String
  score : Int
deriving DecidableEq, Repr

/-- Player.reset_score: sets the score back to 0. -/
def Player.reset_score (p : Player) : Player :=
  { p with score := 0 }

/-- ComputerPlayer.decide: returns the string decision of the computer
strategy — hold at the lesser of 25 or 100 minus the current score. -/
def ComputerPlayer.decide (score : Int) (turn_total : Int) : String :=
  if turn_total ≥ min 25 (100 - score) then "h" else "r"

/-- PlayerFactory.create_player: builds a player of the requested type,
signalling ValueError (as Except.error) on an unknown type string. -/
def PlayerFactory.create_player (player_type : String) (name : String) :
    Except String Player :=
  if player_type = "human" then
    Except.ok { kind := PlayerKind.human, name := name, score := 0 }
  else if player_type = "computer" then
    Except.ok { kind := PlayerKind.computer, name := name, score := 0 }
  else
    Except.error "Unknown player type: must be 'human' or 'computer'"

/-- State of a PigGame: the player list and the current player index. -/
structure GameState where
  players : List Player
  current_player_index : Nat
deriving DecidableEq, Repr

/-- PigGame.__init__: create the two players through the factory; an
invalid type propagates the factory's error before any state exists. -/
def PigGame.init (player1_type player2_type : String) :
    Except String GameState :=
  match PlayerFactory.create_player player1_type "Player 1" with
  | Except.error e => Except.error e
  | Except.ok p1 =>
    match PlayerFactory.create_player player2_type "Player 2" with
    | Except.error e => Except.error e
    | Except.ok p2 =>
      Except.ok { players := [p1, p2], current_player_index := 0 }

/-- PigGame.is_game_over: true iff any player's score is at least 100. -/
def PigGame.is_game_over (g : GameState) : Bool :=
  g.players.any (fun p => decide (100 ≤ p.score))

/-- Python str.strip(): remove leading and trailing whitespace. -/
def pyStrip (s : String) : String :=
  String.mk
    (((s.data.dropWhile Char.isWhitespace).reverse.dropWhile
      Char.isWhitespace).reverse)

/-- Python str.lower(): lowercase every character. -/
def pyLower (s : String) : String :=
  String.mk (s.data.map Char.toLower)

/-- The tokens that cause immediate program termination at the human
prompt. -/
def quitTokens : List String := ["q", "quit", "exit"]

/-- How a single turn's roll/decision loop ends: `quit` models the call
to exit(); `ended banked delta` models reaching the break, where `banked`
records whether the hold branch ran and `delta` is the amount added to
the current player's score (0 on a roll of 1). -/
inductive TurnEnd
  | quit
  | ended (banked : Bool) (delta : Int)
deriving DecidableEq, Repr

/-- The while-loop body of PigGame.play_turn: consume rolls (and, for a
human player, input lines) until the turn ends.  Returns the loop
outcome together with the unconsumed portions of both oracles. -/
def turnLoop (p : Player) :
    Int → List Nat → List String →
    Option (TurnEnd × List Nat × List String)
  | _, [], _ => none
  | turn_total, roll :: rolls, inputs =>
    if roll = 1 then
      some (TurnEnd.ended false 0, rolls, inputs)
    else
      let t := turn_total + (roll : Int)
      match p.kind with
      | PlayerKind.computer =>
        if ComputerPlayer.decide p.score t = "h" then
          some (TurnEnd.ended true t, rolls, inputs)
        else
          turnLoop p t rolls inputs
      | PlayerKind.human =>
        match inputs with
        | [] => none
        | i :: rest =>
          let d := pyLower (pyStrip i)
          if d ∈ quitTokens then
            some (TurnEnd.quit, rolls, rest)
          else if d = "h" then
            some (TurnEnd.ended true t, rolls, rest)
          else
            turnLoop p t rolls rest

/-- Result of one PigGame.play_turn call: either the program exited via
quit (no successor state), or the turn finished and play switched to the
other player. -/
inductive TurnOutcome
  | quit
  | next (banked : Bool) (g : GameState)
deriving DecidableEq, Repr

/-- PigGame.play_turn: run the roll/decision loop for the current
player, apply the score update of the hold branch, and switch players.
A quit outcome performs no score update and no switch. -/
def PigGame.play_turn (g : GameState) (rolls : List Nat)
    (inputs : List String) :
    Option (TurnOutcome × List Nat × List String) :=
  match g.players[g.current_player_index]? with
  | none => none
  | some p =>
    match turnLoop p 0 rolls inputs with
    | none => none
    | some (TurnEnd.quit, rs, ins) => some (TurnOutcome.quit, rs, ins)
    | some (TurnEnd.ended b d, rs, ins) =>
      some (TurnOutcome.next b
        { players :=
            g.players.set g.current_player_index
              { p with score := p.score + d },
          current_player_index :=
            (g.current_player_index + 1) % g.players.length },
        rs, ins)

/-- Python max(players, key=score): first player with the maximal score
(the accumulator is replaced only on a strictly greater key). -/
def pymax (ps : List Player) : Option Player :=
  match ps with
  | [] => none
  | p :: rest =>
    some (rest.foldl (fun best q => if best.score < q.score then q else best) p)

/-- Result of a whole game loop. -/
inductive GameRes
  | finished (winner : Option Player) (final : GameState)
  | quitHalt
deriving DecidableEq, Repr

/-- PigGame.play_game: play turns while the game is not over, then
report the winner as the max-by-score player.  Fuel bounds the number of
loop iterations. -/
def PigGame.play_game :
    Nat → GameState → List Nat → List String →
    Option (GameRes × List Nat × List String)
  | 0, _, _, _ => none
  | fuel + 1, g, rolls, inputs =>
    if PigGame.is_game_over g then
      some (GameRes.finished (pymax g.players) g, rolls, inputs)
    else
      match PigGame.play_turn g rolls inputs with
      | none => none
      | some (TurnOutcome.quit, rs, ins) => some (GameRes.quitHalt, rs, ins)
      | some (TurnOutcome.next _ g', rs, ins) =>
        PigGame.play_game fuel g' rs ins

/-- PigGame.reset_game: reset every player's score and the turn index. -/
def PigGame.reset_game (g : GameState) : GameState :=
  { players := g.players.map Player.reset_score,
    current_player_index := 0 }

/-- Result of the timed game loop: `timedOut` records whether the loop
was left by the deadline check rather than by the game-over check. -/
inductive TimedRes
  | finished (timedOut : Bool) (winner : Option Player) (final : GameState)
  | quitHalt
deriving DecidableEq, Repr

/-- TimedGameProxy.play_game: between turns, sample the clock (one entry
of `clock` per time.time() call in the loop) and stop when the elapsed
time exceeds the limit; either way the winner is the max-by-score
player over the current scores. -/
def TimedGameProxy.play_game (time_limit start_time : Int) :
    Nat → GameState → List Int → List Nat → List String →
    Option (TimedRes × List Int × List Nat × List String)
  | 0, _, _, _, _ => none
  | fuel + 1, g, clock, rolls, inputs =>
    if PigGame.is_game_over g then
      some (TimedRes.finished false (pymax g.players) g, clock, rolls, inputs)
    else
      match clock with
      | [] => none
      | t :: ts =>
        if time_limit < t - start_time then
          some (TimedRes.finished true (pymax g.players) g, ts, rolls, inputs)
        else
          match PigGame.play_turn g rolls inputs with
          | none => none
          | some (TurnOutcome.quit, rs, ins) =>
            some (TimedRes.quitHalt, ts, rs, ins)
          | some (TurnOutcome.next _ g', rs, ins) =>
            TimedGameProxy.play_game time_limit start_time fuel g' ts rs ins

theorem set_self_of_getElem? {α : Type} :
    ∀ (l : List α) (n : Nat) (a : α), l[n]? = some a → l.set n a = l
  | [], n, a, h => by simp at h
  | x :: xs, 0, a, h => by
      simp at h
      simp [List.set, h]
  | x :: xs, n + 1, a, h => by
      simp at h
      simp [List.set]
      exact set_self_of_getElem? xs n a h

/-- Characterisation of the computer strategy used by the turn-loop lemmas. -/
theorem computer_decide_spec (score t : Int) :
    (ComputerPlayer.decide score t = "h" ↔ min 25 (100 - score) ≤ t) ∧
    (ComputerPlayer.decide score t = "r" ↔ t < min 25 (100 - score)) := by
  unfold ComputerPlayer.decide
  by_cases h : min 25 (100 - score) ≤ t
  · rw [if_pos h]
    constructor
    · simp [h]
    · constructor
      · intro hr
        exact absurd hr (by decide)
      · intro hlt
        exact absurd h (not_le.mpr hlt)
  · rw [if_neg h]
    constructor
    · constructor
      · intro hr
        exact absurd hr.symm (by decide)
      · intro hle
        exact absurd hle h
    · simp [not_le.mp h]

theorem turnLoop_roll_one (p : Player) (t : Int) (rolls : List Nat)
    (inputs : List String) :
    turnLoop p t (1 :: rolls) inputs =
      some (TurnEnd.ended false 0, rolls, inputs) := by
  simp [turnLoop]

theorem turnLoop_human_step (p : Player) (t : Int) (roll : Nat)
    (rolls : List Nat) (i : String) (rest : List String)
    (hk : p.kind = PlayerKind.human) (hr : roll ≠ 1) :
    (pyLower (pyStrip i) ∈ quitTokens →
      turnLoop p t (roll :: rolls) (i :: rest) =
        some (TurnEnd.quit, rolls, rest)) ∧
    (pyLower (pyStrip i) = "h" →
      turnLoop p t (roll :: rolls) (i :: rest) =
        some (TurnEnd.ended true (t + roll), rolls, rest)) ∧
    (pyLower (pyStrip i) ∉ quitTokens → pyLower (pyStrip i) ≠ "h" →
      turnLoop p t (roll :: rolls) (i :: rest) =
        turnLoop p (t + roll) rolls rest) := by
  refine ⟨?_, ?_, ?_⟩ <;> intro h1
  · simp [turnLoop, hr, hk, h1]
  · have hq : ("h" : String) ∉ quitTokens := by decide
    simp [turnLoop, hr, hk, hq, h1]
  · intro h2
    simp [turnLoop, hr, hk, h1, h2]

theorem turnLoop_human_nil (p : Player) (t : Int) (roll : Nat)
    (rolls : List Nat) (hk : p.kind = PlayerKind.human) (hr : roll ≠ 1) :
    turnLoop p t (roll :: rolls) [] = none := by
  simp [turnLoop, hr, hk]

theorem turnLoop_computer_step (p : Player) (t : Int) (roll : Nat)
    (rolls : List Nat) (inputs : List String)
    (hk : p.kind = PlayerKind.computer) (hr : roll ≠ 1) :
    (min 25 (100 - p.score) ≤ t + roll →
      turnLoop p t (roll :: rolls) inputs =
        some (TurnEnd.ended true (t + roll), rolls, inputs)) ∧
    (t + roll < min 25 (100 - p.score) →
      turnLoop p t (roll :: rolls) inputs = turnLoop p (t + roll) rolls inputs) := by
  constructor <;> intro h1
  · have := (computer_decide_spec p.score (t + roll)).1.mpr h1
    simp [turnLoop, hr, hk, this]
  · have hne : ComputerPlayer.decide p.score (t + roll) ≠ "h" := by
      rw [(computer_decide_spec p.score (t + roll)).2.mpr h1]
      decide
    simp [turnLoop, hr, hk, hne]

theorem turnLoop_delta (p : Player) :
    ∀ (t : Int) (rolls : List Nat) (inputs : List String) (b : Bool) (d : Int)
      (rs : List Nat) (ins : List String),
      turnLoop p t rolls inputs = some (TurnEnd.ended b d, rs, ins) →
      (b = false → d = 0) ∧ (b = true → t ≤ d)
  | t, [], inputs, b, d, rs, ins, h => by simp [turnLoop] at h
  | t, roll :: rolls, inputs, b, d, rs, ins, h => by
    by_cases hr : roll = 1
    · subst hr
      rw [turnLoop_roll_one] at h
      simp only [Option.some_inj, Prod.mk.injEq, TurnEnd.ended.injEq] at h
      obtain ⟨⟨hb, hd⟩, _, _⟩ := h
      subst hb
      subst hd
      exact ⟨fun _ => rfl, fun hb => by simp at hb⟩
    · have hstep : t ≤ t + (roll : Int) := by
        have : (0 : Int) ≤ (roll : Int) := Int.ofNat_nonneg roll
        omega
      cases hkind : p.kind with
      | computer =>
        by_cases hd : min 25 (100 - p.score) ≤ t + (roll : Int)
        · rw [(turnLoop_computer_step p t roll rolls inputs hkind hr).1 hd] at h
          simp only [Option.some_inj, Prod.mk.injEq, TurnEnd.ended.injEq] at h
          obtain ⟨⟨hb, hdd⟩, _, _⟩ := h
          subst hb
          subst hdd
          exact ⟨fun hb => by simp at hb, fun _ => hstep⟩
        · rw [(turnLoop_computer_step p t roll rolls inputs hkind hr).2
            (not_le.mp hd)] at h
          have ih := turnLoop_delta p (t + (roll : Int)) rolls inputs b d rs ins h
          exact ⟨ih.1, fun hb => le_trans hstep (ih.2 hb)⟩
      | human =>
        cases inputs with
        | nil =>
          rw [turnLoop_human_nil p t roll rolls hkind hr] at h
          simp at h
        | cons i rest =>
          by_cases hq : pyLower (pyStrip i) ∈ quitTokens
          · rw [(turnLoop_human_step p t roll rolls i rest hkind hr).1 hq] at h
            simp at h
          · by_cases hh : pyLower (pyStrip i) = "h"
            · rw [(turnLoop_human_step p t roll rolls i rest hkind hr).2.1 hh] at h
              simp only [Option.some_inj, Prod.mk.injEq, TurnEnd.ended.injEq] at h
              obtain ⟨⟨hb, hdd⟩, _, _⟩ := h
              subst hb
              subst hdd
              exact ⟨fun hb => by simp at hb, fun _ => hstep⟩
            · rw [(turnLoop_human_step p t roll rolls i rest hkind hr).2.2 hq hh] at h
              have ih := turnLoop_delta p (t + (roll : Int)) rolls rest b d rs ins h
              exact ⟨ih.1, fun hb => le_trans hstep (ih.2 hb)⟩

theorem play_turn_eq_next (g : GameState) (p : Player) (rolls : List Nat)
    (inputs : List String) (b : Bool) (d : Int) (rs : List Nat) (ins : List String)
    (hg : g.players[g.current_player_index]? = some p)
    (hl : turnLoop p 0 rolls inputs = some (TurnEnd.ended b d, rs, ins)) :
    PigGame.play_turn g rolls inputs =
      some (TurnOutcome.next b
        { players := g.players.set g.current_player_index
            { p with score := p.score + d },
          current_player_index := (g.current_player_index + 1) % g.players.length },
        rs, ins) := by
  simp only [PigGame.play_turn, hg, hl]

theorem play_turn_eq_quit (g : GameState) (p : Player) (rolls : List Nat)
    (inputs : List String) (rs : List Nat) (ins : List String)
    (hg : g.players[g.current_player_index]? = some p)
    (hl : turnLoop p 0 rolls inputs = some (TurnEnd.quit, rs, ins)) :
    PigGame.play_turn g rolls inputs = some (TurnOutcome.quit, rs, ins) := by
  simp only [PigGame.play_turn, hg, hl]

theorem play_turn_eq_none_of_bad_index (g : GameState) (rolls : List Nat)
    (inputs : List String)
    (hg : g.players[g.current_player_index]? = none) :
    PigGame.play_turn g rolls inputs = none := by
  simp only [PigGame.play_turn, hg]

theorem play_turn_eq_none_of_loop_none (g : GameState) (p : Player)
    (rolls : List Nat) (inputs : List String)
    (hg : g.players[g.current_player_index]? = some p)
    (hl : turnLoop p 0 rolls inputs = none) :
    PigGame.play_turn g rolls inputs = none := by
  simp only [PigGame.play_turn, hg, hl]

theorem play_turn_inv (g : GameState) (rolls : List Nat) (inputs : List String)
    (b : Bool) (g' : GameState) (rs : List Nat) (ins : List String)
    (h : PigGame.play_turn g rolls inputs = some (TurnOutcome.next b g', rs, ins)) :
    ∃ p d, g.players[g.current_player_index]? = some p ∧
      turnLoop p 0 rolls inputs = some (TurnEnd.ended b d, rs, ins) ∧
      g' = { players := g.players.set g.current_player_index
               { p with score := p.score + d },
             current_player_index :=
               (g.current_player_index + 1) % g.players.length } := by
  cases hg : g.players[g.current_player_index]? with
  | none =>
    rw [play_turn_eq_none_of_bad_index g rolls inputs hg] at h
    exact absurd h (by simp)
  | some p =>
    cases hl : turnLoop p 0 rolls inputs with
    | none =>
      rw [play_turn_eq_none_of_loop_none g p rolls inputs hg hl] at h
      exact absurd h (by simp)
    | some res =>
      obtain ⟨te, rs2, ins2⟩ := res
      cases te with
      | quit =>
        rw [play_turn_eq_quit g p rolls inputs rs2 ins2 hg hl] at h
        simp at h
      | ended bb dd =>
        rw [play_turn_eq_next g p rolls inputs bb dd rs2 ins2 hg hl] at h
        simp only [Option.some_inj, Prod.mk.injEq, TurnOutcome.next.injEq] at h
        obtain ⟨⟨hb, hgs⟩, hrs, hins⟩ := h
        subst hb
        subst hrs
        subst hins
        exact ⟨p, dd, rfl, hl, hgs.symm⟩

theorem play_turn_facts (g : GameState) (rolls : List Nat) (inputs : List String)
    (b : Bool) (g' : GameState) (rs : List Nat) (ins : List String)
    (h : PigGame.play_turn g rolls inputs = some (TurnOutcome.next b g', rs, ins)) :
    g'.players.length = g.players.length ∧
    (∀ (j : Nat), j ≠ g.current_player_index → g'.players[j]? = g.players[j]?) ∧
    (∀ (j : Nat) (pj pj' : Player), g.players[j]? = some pj → g'.players[j]? = some pj' →
      pj.score ≤ pj'.score) ∧
    ((∀ q ∈ g.players, 0 ≤ q.score) → ∀ q ∈ g'.players, 0 ≤ q.score) ∧
    (b = false → g'.players = g.players) := by
  obtain ⟨p, d, hg, hl, hg'⟩ := play_turn_inv g rolls inputs b g' rs ins h
  have hdelta := turnLoop_delta p 0 rolls inputs b d rs ins hl
  have hd0 : 0 ≤ d := by
    cases b with
    | false => rw [hdelta.1 rfl]
    | true => exact hdelta.2 rfl
  have hlt : g.current_player_index < g.players.length :=
    (List.getElem?_eq_some.mp hg).1
  subst hg'
  refine ⟨by simp, ?_, ?_, ?_, ?_⟩
  · intro j hj
    exact List.getElem?_set_ne (fun he => hj he.symm)
  · intro j pj pj' hpj hpj'
    by_cases hj : j = g.current_player_index
    · subst hj
      rw [hg] at hpj
      rw [List.getElem?_set_self hlt] at hpj'
      simp at hpj hpj'
      subst hpj
      subst hpj'
      simp
      omega
    · rw [List.getElem?_set_ne (fun he => hj he.symm)] at hpj'
      rw [hpj] at hpj'
      simp at hpj'
      subst hpj'
      exact le_refl _
  · intro hall q hq
    rcases List.mem_or_eq_of_mem_set hq with hmem | heq
    · exact hall q hmem
    · subst heq
      have hpmem : p ∈ g.players := by
        obtain ⟨hlt2, hget⟩ := List.getElem?_eq_some.mp hg
        subst hget
        exact List.getElem_mem hlt2
      have := hall p hpmem
      simp
      omega
  · intro hb
    subst hb
    rw [hdelta.1 rfl]
    have hpe : ({ p with score := p.score + 0 } : Player) = p := by
      rw [Int.add_zero]
    rw [hpe]
    exact set_self_of_getElem? g.players g.current_player_index p hg

theorem play_game_over (fuel : Nat) (g : GameState) (rolls : List Nat)
    (inputs : List String) (hover : PigGame.is_game_over g = true) :
    PigGame.play_game (fuel + 1) g rolls inputs =
      some (GameRes.finished (pymax g.players) g, rolls, inputs) := by
  simp [PigGame.play_game, hover]

theorem play_game_step (fuel : Nat) (g : GameState) (rolls : List Nat)
    (inputs : List String) (b : Bool) (g' : GameState) (rs : List Nat)
    (ins : List String) (hover : PigGame.is_game_over g = false)
    (hturn : PigGame.play_turn g rolls inputs =
      some (TurnOutcome.next b g', rs, ins)) :
    PigGame.play_game (fuel + 1) g rolls inputs =
      PigGame.play_game fuel g' rs ins := by
  simp [PigGame.play_game, hover, hturn]

theorem play_game_winner :
    ∀ (fuel : Nat) (g : GameState) (rolls : List Nat) (inputs : List String)
      (w : Option Player) (gf : GameState) (rs : List Nat) (ins : List String),
      PigGame.play_game fuel g rolls inputs =
        some (GameRes.finished w gf, rs, ins) →
      w = pymax gf.players
  | 0, g, rolls, inputs, w, gf, rs, ins, h => by simp [PigGame.play_game] at h
  | fuel + 1, g, rolls, inputs, w, gf, rs, ins, h => by
    by_cases hover : PigGame.is_game_over g
    · rw [play_game_over fuel g rolls inputs hover] at h
      simp only [Option.some_inj, Prod.mk.injEq, GameRes.finished.injEq] at h
      obtain ⟨⟨hw, hgf⟩, _, _⟩ := h
      subst hgf
      exact hw.symm
    · rw [Bool.not_eq_true] at hover
      cases hturn : PigGame.play_turn g rolls inputs with
      | none =>
        rw [PigGame.play_game] at h
        rw [hover] at h
        simp only [Bool.false_eq_true, if_false] at h
        rw [hturn] at h
        simp at h
      | some res =>
        obtain ⟨oc, rs2, ins2⟩ := res
        cases oc with
        | quit =>
          rw [PigGame.play_game] at h
          rw [hover] at h
          simp only [Bool.false_eq_true, if_false] at h
          rw [hturn] at h
          simp at h
        | next b g' =>
          rw [play_game_step fuel g rolls inputs b g' rs2 ins2 hover hturn] at h
          exact play_game_winner fuel g' rs2 ins2 w gf rs ins h

theorem timed_play_game_over (limit start : Int) (fuel : Nat) (g : GameState)
    (clock : List Int) (rolls : List Nat) (inputs : List String)
    (hover : PigGame.is_game_over g = true) :
    TimedGameProxy.play_game limit start (fuel + 1) g clock rolls inputs =
      some (TimedRes.finished false (pymax g.players) g, clock, rolls, inputs) := by
  simp [TimedGameProxy.play_game, hover]

theorem timed_play_game_timeout (limit start : Int) (fuel : Nat) (g : GameState)
    (t0 : Int) (ts : List Int) (rolls : List Nat) (inputs : List String)
    (hover : PigGame.is_game_over g = false) (htime : limit < t0 - start) :
    TimedGameProxy.play_game limit start (fuel + 1) g (t0 :: ts) rolls inputs =
      some (TimedRes.finished true (pymax g.players) g, ts, rolls, inputs) := by
  simp [TimedGameProxy.play_game, hover, htime]

theorem timed_play_game_step (limit start : Int) (fuel : Nat) (g : GameState)
    (t0 : Int) (ts : List Int) (rolls : List Nat) (inputs : List String)
    (b : Bool) (g' : GameState) (rs : List Nat) (ins : List String)
    (hover : PigGame.is_game_over g = false) (htime : ¬limit < t0 - start)
    (hturn : PigGame.play_turn g rolls inputs =
      some (TurnOutcome.next b g', rs, ins)) :
    TimedGameProxy.play_game limit start (fuel + 1) g (t0 :: ts) rolls inputs =
      TimedGameProxy.play_game limit start fuel g' ts rs ins := by
  simp [TimedGameProxy.play_game, hover, htime, hturn]

theorem timed_play_game_winner :
    ∀ (limit start : Int) (fuel : Nat) (g : GameState) (clock : List Int)
      (rolls : List Nat) (inputs : List String) (tb : Bool) (w : Option Player)
      (gf : GameState) (cs : List Int) (rs : List Nat) (ins : List String),
      TimedGameProxy.play_game limit start fuel g clock rolls inputs =
        some (TimedRes.finished tb w gf, cs, rs, ins) →
      w = pymax gf.players
  | limit, start, 0, g, clock, rolls, inputs, tb, w, gf, cs, rs, ins, h => by
    simp [TimedGameProxy.play_game] at h
  | limit, start, fuel + 1, g, clock, rolls, inputs, tb, w, gf, cs, rs, ins, h => by
    by_cases hover : PigGame.is_game_over g
    · rw [timed_play_game_over limit start fuel g clock rolls inputs hover] at h
      simp only [Option.some_inj, Prod.mk.injEq, TimedRes.finished.injEq] at h
      obtain ⟨⟨_, hw, hgf⟩, _, _, _⟩ := h
      subst hgf
      exact hw.symm
    · rw [Bool.not_eq_true] at hover
      cases clock with
      | nil =>
        rw [TimedGameProxy.play_game] at h
        rw [hover] at h
        simp at h
      | cons t0 ts =>
        by_cases htime : limit < t0 - start
        · rw [timed_play_game_timeout limit start fuel g t0 ts rolls inputs
            hover htime] at h
          simp only [Option.some_inj, Prod.mk.injEq, TimedRes.finished.injEq] at h
          obtain ⟨⟨_, hw, hgf⟩, _, _, _⟩ := h
          subst hgf
          exact hw.symm
        · cases hturn : PigGame.play_turn g rolls inputs with
          | none =>
            rw [TimedGameProxy.play_game] at h
            rw [hover] at h
            simp only [Bool.false_eq_true, if_false] at h
            rw [if_neg htime] at h
            rw [hturn] at h
            simp at h
          | some res =>
            obtain ⟨oc, rs2, ins2⟩ := res
            cases oc with
            | quit =>
              rw [TimedGameProxy.play_game] at h
              rw [hover] at h
              simp only [Bool.false_eq_true, if_false] at h
              rw [if_neg htime] at h
              rw [hturn] at h
              simp at h
            | next b g' =>
              rw [timed_play_game_step limit start fuel g t0 ts rolls inputs
                b g' rs2 ins2 hover htime hturn] at h
              exact timed_play_game_winner limit start fuel g' ts rs2 ins2
                tb w gf cs rs ins h

/-- C2: the computer strategy banks exactly when the turn total has
reached the lesser of 25 and 100 minus the banked score, and otherwise
rolls again. -/
theorem computer_decide_bank_iff (score t : Int) :
    (ComputerPlayer.decide score t = "h" ↔ min 25 (100 - score) ≤ t) ∧
    (ComputerPlayer.decide score t = "r" ↔ t < min 25 (100 - score)) :=
  computer_decide_spec score t

/-- C4: is_game_over is true exactly when some player has at least 100
points; on a two-player state, exactly when one of the two has. -/
theorem is_game_over_iff (g : GameState) (a b : Player) (i : Nat) :
    (PigGame.is_game_over g = true ↔ ∃ p ∈ g.players, 100 ≤ p.score) ∧
    (PigGame.is_game_over { players := [a, b], current_player_index := i } = true ↔
      100 ≤ a.score ∨ 100 ≤ b.score) := by
  constructor
  · simp [PigGame.is_game_over, List.any_eq_true]
  · simp [PigGame.is_game_over]

/-- C8: player construction succeeds exactly for the types human and
computer; any other type yields the ValueError, and game construction
propagates it so no game state is produced. -/
theorem invalid_player_type_rejected :
    (∀ (tt nn : String), (∃ p, PlayerFactory.create_player tt nn = Except.ok p) ↔
      (tt = "human" ∨ tt = "computer")) ∧
    (∀ (tt nn : String), tt ≠ "human" → tt ≠ "computer" →
      PlayerFactory.create_player tt nn =
        Except.error "Unknown player type: must be 'human' or 'computer'") ∧
    (∀ (t1 t2 : String), (∃ g, PigGame.init t1 t2 = Except.ok g) ↔
      ((t1 = "human" ∨ t1 = "computer") ∧ (t2 = "human" ∨ t2 = "computer"))) := by
  refine ⟨?_, ?_, ?_⟩
  · intro tt nn
    unfold PlayerFactory.create_player
    by_cases h1 : tt = "human"
    · simp [h1]
    · by_cases h2 : tt = "computer" <;> simp [h1, h2]
  · intro tt nn h1 h2
    unfold PlayerFactory.create_player
    simp [h1, h2]
  · intro t1 t2
    unfold PigGame.init PlayerFactory.create_player
    by_cases h1 : t1 = "human" <;> by_cases h2 : t1 = "computer" <;>
      by_cases h3 : t2 = "human" <;> by_cases h4 : t2 = "computer" <;>
      simp [h1, h2, h3, h4]

/-- C9: reset_game zeroes both scores and the current index, keeps the
same players (names, kinds, count), and is idempotent. -/
theorem reset_game_idempotent_and_clears (g : GameState) (p : Player) :
    PigGame.reset_game (PigGame.reset_game g) = PigGame.reset_game g ∧
    (PigGame.reset_game g).current_player_index = 0 ∧
    (p ∈ (PigGame.reset_game g).players → p.score = 0) ∧
    (PigGame.reset_game g).players.map Player.name = g.players.map Player.name ∧
    (PigGame.reset_game g).players.map Player.kind = g.players.map Player.kind ∧
    (PigGame.reset_game g).players.length = g.players.length := by
  have hff : Player.reset_score ∘ Player.reset_score = Player.reset_score := by
    funext q
    rfl
  have hname : Player.name ∘ Player.reset_score = Player.name := by
    funext q
    rfl
  have hkind : Player.kind ∘ Player.reset_score = Player.kind := by
    funext q
    rfl
  refine ⟨?_, rfl, ?_, ?_, ?_, by simp [PigGame.reset_game]⟩
  · unfold PigGame.reset_game
    simp [List.map_map, hff]
  · intro hp
    unfold PigGame.reset_game at hp
    simp at hp
    obtain ⟨q, _, hq⟩ := hp
    rw [← hq]
    rfl
  · unfold PigGame.reset_game
    simp [List.map_map, hname]
  · unfold PigGame.reset_game
    simp [List.map_map, hkind]

/-- C1 (amended): at a human decision prompt, after stripping and
lowercasing, a quit token terminates the program immediately with no
banking; the single letter h banks the running turn total; every other
input — r, roll, and also the unrecognized word hold — continues the
turn with another roll. -/
theorem human_input_token_semantics (p : Player) (t : Int) (roll : Nat)
    (rolls : List Nat) (i : String) (rest : List String)
    (hk : p.kind = PlayerKind.human) (hr : roll ≠ 1) :
    (pyLower (pyStrip i) ∈ quitTokens →
      turnLoop p t (roll :: rolls) (i :: rest) =
        some (TurnEnd.quit, rolls, rest)) ∧
    (pyLower (pyStrip i) = "h" →
      turnLoop p t (roll :: rolls) (i :: rest) =
        some (TurnEnd.ended true (t + roll), rolls, rest)) ∧
    (pyLower (pyStrip i) ∉ quitTokens → pyLower (pyStrip i) ≠ "h" →
      turnLoop p t (roll :: rolls) (i :: rest) =
        turnLoop p (t + roll) rolls rest) ∧
    (∀ (g : GameState) (rolls2 : List Nat) (inputs2 : List String)
       (rs : List Nat) (ins : List String),
       g.players[g.current_player_index]? = some p →
       turnLoop p 0 rolls2 inputs2 = some (TurnEnd.quit, rs, ins) →
       PigGame.play_turn g rolls2 inputs2 = some (TurnOutcome.quit, rs, ins)) := by
  obtain ⟨h1, h2, h3⟩ := turnLoop_human_step p t roll rolls i rest hk hr
  exact ⟨h1, h2, h3, fun g rolls2 inputs2 rs ins hg hl =>
    play_turn_eq_quit g p rolls2 inputs2 rs ins hg hl⟩

/-- C1 counterexample: with turn total 2, the human input hold does not
bank; the loop keeps rolling (here a further roll of 3 and a later
plain h bank 5), instead of ending the turn at once with 2 banked as the
claim requires. -/
theorem hold_input_does_not_bank_cex :
    turnLoop { kind := PlayerKind.human, name := "Player 1", score := 0 } 0
        [2, 3] ["hold", "h"] =
      some (TurnEnd.ended true 5, [], []) ∧
    turnLoop { kind := PlayerKind.human, name := "Player 1", score := 0 } 0
        [2, 3] ["hold", "h"] ≠
      some (TurnEnd.ended true 2, [3], ["h"]) := by
  constructor
  · decide
  · decide

/-- C3: a roll of 1 at any point of a turn ends the loop at once with
nothing added, consuming no decision input, and play_turn then passes
play to the other player with every score unchanged. -/
theorem roll_one_forfeits_turn :
    (∀ (p : Player) (t : Int) (rolls : List Nat) (inputs : List String),
      turnLoop p t (1 :: rolls) inputs =
        some (TurnEnd.ended false 0, rolls, inputs)) ∧
    (∀ (g : GameState) (p : Player) (rolls : List Nat) (inputs : List String),
      g.players[g.current_player_index]? = some p →
      PigGame.play_turn g (1 :: rolls) inputs =
        some (TurnOutcome.next false
          { players := g.players,
            current_player_index :=
              (g.current_player_index + 1) % g.players.length },
          rolls, inputs)) := by
  refine ⟨turnLoop_roll_one, ?_⟩
  intro g p rolls inputs hg
  have h := play_turn_eq_next g p (1 :: rolls) inputs false 0 rolls inputs hg
    (turnLoop_roll_one p 0 rolls inputs)
  have hpe : ({ p with score := p.score + 0 } : Player) = p := by
    rw [Int.add_zero]
  rw [h, hpe, set_self_of_getElem? g.players g.current_player_index p hg]

/-- C10: a human input that is neither h nor a quit token is treated
exactly like an explicit roll-again: one input line is consumed, the
loop proceeds directly to the next roll with the same turn total, no
error occurs and no score is touched. -/
theorem unrecognized_input_continues (p : Player) (t : Int) (roll : Nat)
    (rolls : List Nat) (i : String) (rest : List String)
    (hk : p.kind = PlayerKind.human) (hr : roll ≠ 1)
    (hq : pyLower (pyStrip i) ∉ quitTokens)
    (hh : pyLower (pyStrip i) ≠ "h") :
    turnLoop p t (roll :: rolls) (i :: rest) =
      turnLoop p (t + roll) rolls rest ∧
    turnLoop p t (roll :: rolls) (i :: rest) =
      turnLoop p t (roll :: rolls) ("r" :: rest) := by
  have h3 := (turnLoop_human_step p t roll rolls i rest hk hr).2.2 hq hh
  have hr3 := (turnLoop_human_step p t roll rolls "r" rest hk hr).2.2
    (by decide) (by decide)
  exact ⟨h3, h3.trans hr3.symm⟩

/-- C6: the untimed loop stops exactly at game over: on an already-won
state no turn is played and the result is reported at once, and when a
turn makes is_game_over true the loop ends before the opponent's next
turn, consuming no further oracle entries. -/
theorem play_game_stops_when_over :
    (∀ (fuel : Nat) (g : GameState) (rolls : List Nat) (inputs : List String),
      PigGame.is_game_over g = true →
      PigGame.play_game (fuel + 1) g rolls inputs =
        some (GameRes.finished (pymax g.players) g, rolls, inputs)) ∧
    (∀ (fuel : Nat) (g : GameState) (rolls : List Nat) (inputs : List String)
       (b : Bool) (g' : GameState) (rs : List Nat) (ins : List String),
      PigGame.is_game_over g = false →
      PigGame.play_turn g rolls inputs = some (TurnOutcome.next b g', rs, ins) →
      PigGame.is_game_over g' = true →
      PigGame.play_game (fuel + 2) g rolls inputs =
        some (GameRes.finished (pymax g'.players) g', rs, ins)) := by
  constructor
  · exact fun fuel g rolls inputs h => play_game_over fuel g rolls inputs h
  · intro fuel g rolls inputs b g' rs ins hov hturn hov'
    have hstep := play_game_step (fuel + 1) g rolls inputs b g' rs ins hov hturn
    rw [hstep]
    exact play_game_over fuel g' rs ins hov'

/-- C5: at a between-turn check with the deadline passed, the timed loop
plays no further turn and reports at once; in both loops the reported
winner is the max-by-score player over the final scores, with ties going
to the first player of the list. -/
theorem timed_deadline_and_winner_reporting :
    (∀ (limit start : Int) (fuel : Nat) (g : GameState) (t0 : Int)
       (ts : List Int) (rolls : List Nat) (inputs : List String),
      PigGame.is_game_over g = false → limit < t0 - start →
      TimedGameProxy.play_game limit start (fuel + 1) g (t0 :: ts) rolls inputs =
        some (TimedRes.finished true (pymax g.players) g, ts, rolls, inputs)) ∧
    (∀ (fuel : Nat) (g : GameState) (rolls : List Nat) (inputs : List String)
       (w : Option Player) (gf : GameState) (rs : List Nat) (ins : List String),
      PigGame.play_game fuel g rolls inputs =
        some (GameRes.finished w gf, rs, ins) →
      w = pymax gf.players) ∧
    (∀ (limit start : Int) (fuel : Nat) (g : GameState) (clock : List Int)
       (rolls : List Nat) (inputs : List String) (tb : Bool) (w : Option Player)
       (gf : GameState) (cs : List Int) (rs : List Nat) (ins : List String),
      TimedGameProxy.play_game limit start fuel g clock rolls inputs =
        some (TimedRes.finished tb w gf, cs, rs, ins) →
      w = pymax gf.players) ∧
    (∀ (a b : Player), pymax [a, b] = some (if a.score < b.score then b else a)) ∧
    (∀ (a b : Player), a.score = b.score → pymax [a, b] = some a) := by
  refine ⟨?_, play_game_winner, timed_play_game_winner, ?_, ?_⟩
  · exact fun limit start fuel g t0 ts rolls inputs h1 h2 =>
      timed_play_game_timeout limit start fuel g t0 ts rolls inputs h1 h2
  · intro a b
    rfl
  · intro a b h
    simp [pymax, h]

/-- C7: scores start at 0 at construction, reset_score sets exactly 0,
and one play_turn call keeps the player count, leaves every non-current
player untouched, never decreases any score, preserves non-negativity,
and changes nothing at all unless the turn was banked. -/
theorem score_invariants :
    (∀ (tt nn : String) (p : Player),
      PlayerFactory.create_player tt nn = Except.ok p → p.score = 0) ∧
    (∀ (p : Player), (Player.reset_score p).score = 0) ∧
    (∀ (g : GameState) (rolls : List Nat) (inputs : List String) (b : Bool)
       (g' : GameState) (rs : List Nat) (ins : List String),
      PigGame.play_turn g rolls inputs = some (TurnOutcome.next b g', rs, ins) →
      g'.players.length = g.players.length ∧
      (∀ (j : Nat), j ≠ g.current_player_index →
        g'.players[j]? = g.players[j]?) ∧
      (∀ (j : Nat) (pj pj' : Player), g.players[j]? = some pj →
        g'.players[j]? = some pj' → pj.score ≤ pj'.score) ∧
      ((∀ q ∈ g.players, 0 ≤ q.score) → ∀ q ∈ g'.players, 0 ≤ q.score) ∧
      (b = false → g'.players = g.players)) := by
  refine ⟨?_, fun p => rfl, fun g rolls inputs b g' rs ins h =>
    play_turn_facts g rolls inputs b g' rs ins h⟩
  intro tt nn p h
  unfold PlayerFactory.create_player at h
  by_cases h1 : tt = "human"
  · rw [if_pos h1] at h
    cases h
    rfl
  · rw [if_neg h1] at h
    by_cases h2 : tt = "computer"
    · rw [if_pos h2] at h
      cases h
      rfl
    · rw [if_neg h2] at h
      cases h

/-- Sample human player used in concrete instantiations. -/
def pHuman : Player :=
  { kind := PlayerKind.human, name := "Player 1", score := 0 }

/-- Sample second human player used in concrete instantiations. -/
def pHuman2 : Player :=
  { kind := PlayerKind.human, name := "Player 2", score := 0 }

/-- Sample computer player at 95 points. -/
def pComp95 : Player :=
  { kind := PlayerKind.computer, name := "Player 1", score := 95 }

/-- Sample computer player at 100 points. -/
def pComp100 : Player :=
  { kind := PlayerKind.computer, name := "Player 1", score := 100 }

/-- Sample game: computer at 95 to move against a human at 0. -/
def gComp : GameState :=
  { players := [pComp95, pHuman2], current_player_index := 0 }

/-- The state after the computer banks 5 from gComp. -/
def gCompWon : GameState :=
  { players := [pComp100, pHuman2], current_player_index := 1 }

/-- Witness for C1: a concrete quit input ends the turn loop with the
quit outcome. -/
theorem human_input_token_semantics_witness :
    turnLoop pHuman 0 [4] [" Q "] = some (TurnEnd.quit, [], []) :=
  (human_input_token_semantics pHuman 0 4 [] " Q " [] rfl (by decide)).1
    (by decide)

/-- Witness for C3: a leading roll of 1 in a concrete two-player game
switches players with both scores unchanged. -/
theorem roll_one_forfeits_turn_witness :
    gComp.players[gComp.current_player_index]? = some pComp95 ∧
    PigGame.play_turn gComp [1, 6] ["h"] =
      some (TurnOutcome.next false
        { players := [pComp95, pHuman2], current_player_index := 1 },
        [6], ["h"]) :=
  ⟨by decide, roll_one_forfeits_turn.2 gComp pComp95 [6] ["h"] (by decide)⟩

/-- Witness for C5: concrete timed game where the deadline has passed at
the between-turn check. -/
theorem timed_deadline_and_winner_reporting_witness :
    PigGame.is_game_over gComp = false ∧ (60 : Int) < 161 - 100 ∧
    TimedGameProxy.play_game 60 100 1 gComp [161] [3] ["h"] =
      some (TimedRes.finished true (pymax gComp.players) gComp,
        [], [3], ["h"]) :=
  ⟨by decide, by decide,
    timed_deadline_and_winner_reporting.1 60 100 0 gComp 161 [] [3] ["h"]
      (by decide) (by decide)⟩

/-- Witness for C6: the computer banks from 95 to 100 and the loop
reports the winner before the human gets a turn. -/
theorem play_game_stops_when_over_witness :
    PigGame.is_game_over gComp = false ∧
    PigGame.play_turn gComp [5] [] =
      some (TurnOutcome.next true gCompWon, [], []) ∧
    PigGame.is_game_over gCompWon = true ∧
    PigGame.play_game 2 gComp [5] [] =
      some (GameRes.finished (pymax gCompWon.players) gCompWon, [], []) :=
  ⟨by decide, by decide, by decide,
    play_game_stops_when_over.2 0 gComp [5] [] true gCompWon [] []
      (by decide) (by decide) (by decide)⟩

/-- Witness for C7: concrete construction score, concrete banked turn,
and the untouched non-current player. -/
theorem score_invariants_witness :
    ({ kind := PlayerKind.human, name := "X", score := 0 } : Player).score = 0 ∧
    PigGame.play_turn gComp [5] [] =
      some (TurnOutcome.next true gCompWon, [], []) ∧
    gCompWon.players.length = gComp.players.length ∧
    gCompWon.players[1]? = gComp.players[1]? :=
  ⟨score_invariants.1 "human" "X"
      { kind := PlayerKind.human, name := "X", score := 0 } rfl,
    by decide,
    (score_invariants.2.2 gComp [5] [] true gCompWon [] [] (by decide)).1,
    (score_invariants.2.2 gComp [5] [] true gCompWon [] [] (by decide)).2.1 1
      (by decide)⟩

/-- Witness for C8: an unknown player type is rejected with the
ValueError message. -/
theorem invalid_player_type_rejected_witness :
    ("alien" : String) ≠ "human" ∧ ("alien" : String) ≠ "computer" ∧
    PlayerFactory.create_player "alien" "Player 1" =
      Except.error "Unknown player type: must be 'human' or 'computer'" :=
  ⟨by decide, by decide,
    invalid_player_type_rejected.2.1 "alien" "Player 1" (by decide) (by decide)⟩

/-- Witness for C9: the reset of a concrete game zeroes a concrete
member player's score. -/
theorem reset_game_idempotent_and_clears_witness :
    ({ kind := PlayerKind.computer, name := "Player 1", score := 0 } : Player) ∈
      (PigGame.reset_game gComp).players ∧
    ({ kind := PlayerKind.computer, name := "Player 1", score := 0 } :
      Player).score = 0 :=
  ⟨by decide,
    (reset_game_idempotent_and_clears gComp
      { kind := PlayerKind.computer, name := "Player 1", score := 0 }).2.2.1
      (by decide)⟩

/-- Witness for C10: a concrete unrecognized input falls through to the
next roll with the turn total kept. -/
theorem unrecognized_input_continues_witness :
    pyLower (pyStrip "xyz") ∉ quitTokens ∧ pyLower (pyStrip "xyz") ≠ "h" ∧
    turnLoop pHuman 0 [2, 1] ["xyz"] = turnLoop pHuman (0 + 2) [1] [] :=
  ⟨by decide, by decide,
    (unrecognized_input_continues pHuman 0 2 [1] "xyz" [] rfl (by decide)
      (by decide) (by decide)).1⟩
